import Mathlib

/-!
# Formal model of `scripts/build_basic_rom.py`

Shallow embedding of the ROM build pipeline.  Python strings are modelled as
`List Char`; fallible functions return `Except RomError`.  The definitions
follow the source script line by line:

* `read_and_validate` models the function of the same name,
* `main` models `main` (fragment validation, concatenation, integrity check,
  chunking, rendering, write, print),
* `chunksOf` models `textwrap.wrap(s, n)` on whitespace-free input (the only
  inputs reaching it, since validated fragments are pure hex digits): for such
  input `wrap` splits the string into consecutive runs of `n` characters.
-/

namespace BasicRomBuild

/-- Whitespace characters removed by Python `str.strip()` (ASCII range; the
inputs in scope are ASCII hex text interspersed with ASCII whitespace). -/
def isPySpace (c : Char) : Bool :=
  c == ' ' || c == '\t' || c == '\n' || c == '\r' || c == '\x0b' || c == '\x0c'

/-- Python `raw.strip()`: drop leading and trailing whitespace only. -/
def pyStrip (s : List Char) : List Char :=
  ((s.dropWhile isPySpace).reverse.dropWhile isPySpace).reverse

/-- Python `raw.strip().replace("\n", "")`: the normalization performed at the
start of `read_and_validate` — strip the two ends, then delete every newline
character (embedded ones included); other embedded whitespace survives. -/
def normalize (s : List Char) : List Char :=
  (pyStrip s).filter (fun c => c != '\n')

/-- The error conditions raised by the script: the two `ValueError`s of
`read_and_validate` (length, then character set) and the `AssertionError`
of `main` (combined-length integrity check). -/
inductive RomError where
  | lengthMismatch (actual expected : Nat)
  | invalidHex
  | integrityMismatch
  deriving DecidableEq

/-- The character set accepted by the validator: `"0123456789abcdefABCDEF"`. -/
def HEX_CHARS : List Char := "0123456789abcdefABCDEF".toList

/-- Model of `read_and_validate`: normalize, check the exact length 16384,
check evenness and the character set, and return the lower-cased string. -/
def read_and_validate (raw : List Char) : Except RomError (List Char) :=
  if (normalize raw).length ≠ 16384 then
    Except.error (RomError.lengthMismatch (normalize raw).length 16384)
  else if (normalize raw).length % 2 != 0
      || (normalize raw).any (fun c => !(HEX_CHARS.contains c)) then
    Except.error RomError.invalidHex
  else
    Except.ok ((normalize raw).map Char.toLower)

/-- `CHUNK_HEX_LEN = 1024` from the script. -/
def CHUNK_HEX_LEN : Nat := 1024

/-- Model of `textwrap.wrap(s, n)` for whitespace-free `s` (the call site only
receives validated hex digits): split into consecutive chunks of `n`
characters, the last one possibly shorter; `wrap("") = []`. -/
def chunksOf (n : Nat) (s : List Char) : List (List Char) :=
  if h : n = 0 ∨ s = [] then []
  else s.take n :: chunksOf n (s.drop n)
termination_by s.length
decreasing_by
  push_neg at h
  simp only [List.length_drop]
  exact Nat.sub_lt (List.length_pos.mpr h.2) (Nat.pos_of_ne_zero h.1)

/-- One Solidity literal token `hex"<chunk>"`, as built by
`f-string hex"{chunk}"` in the script. -/
def hexLiteral (chunk : List Char) : List Char :=
  'h' :: 'e' :: 'x' :: '"' :: (chunk ++ ['"'])

/-- The text of the Solidity template before the `{hex_literals}` hole. -/
def solHead : List Char :=
  ("// SPDX-License-Identifier: MIT\npragma solidity ^0.8.20;\n\n" ++
   "/// @title BasicRom — EhBASIC v2.22 ROM (16 KiB)\n" ++
   "/// @notice Deployed bytecode *is* the ROM image. Auto‑generated — DO NOT EDIT MANUALLY.\n" ++
   "///          Regenerate with `python scripts/build_basic_rom.py` if needed.\n" ++
   "contract BasicRom \x7b\n    constructor() \x7b\n        bytes memory rom = ").toList

/-- The text of the Solidity template after the `{hex_literals}` hole. -/
def solTail : List Char :=
  (";\n        assembly \x7b\n            return(add(rom, 0x20), mload(rom))\n" ++
   "        \x7d\n    \x7d\n\x7d\n").toList

/-- `sol_source`: the rendered output text — the chunk literals joined with a
single space, spliced into the fixed template. -/
def renderSol (chunks : List (List Char)) : List Char :=
  solHead ++ List.intercalate [' '] (chunks.map hexLiteral) ++ solTail

/-- The text printed by `main` on success.  The script writes
`print(f"Generated \x7b\x7bOUTPUT_SOL\x7d\x7d （...）")` with doubled braces inside an
f-string, so the doubled braces are escapes and the printed text is the
literal placeholder string, independent of the run's data. -/
def buildMessage : List Char :=
  "Generated \x7bOUTPUT_SOL\x7d (\x7blen(combined) // 2\x7d bytes)".toList

/-- `OUTPUT_SOL = Path("src/BasicRom.sol")`. -/
def OUTPUT_SOL : List Char := "src/BasicRom.sol".toList

/-- The observable effects of a successful run: the text written to
`OUTPUT_SOL` and the text printed to stdout. -/
structure RunResult where
  output : List Char
  message : List Char
  deriving DecidableEq

/-- Model of `main`: validate part 1 then part 2 (failing fast, as the list
comprehension does), concatenate, check the combined length, chunk, render,
write and print.  On any error the run aborts before the write. -/
def main (raw1 raw2 : List Char) : Except RomError RunResult :=
  match read_and_validate raw1 with
  | Except.error e => Except.error e
  | Except.ok p1 =>
    match read_and_validate raw2 with
    | Except.error e => Except.error e
    | Except.ok p2 =>
      let combined := p1 ++ p2
      if combined.length ≠ 32768 then
        Except.error RomError.integrityMismatch
      else
        Except.ok ⟨renderSol (chunksOf CHUNK_HEX_LEN combined), buildMessage⟩

/-- The content written to the output file by a run: `none` when the run
fails (the write statement is never reached). -/
def writtenOutput (r : Except RomError RunResult) : Option (List Char) :=
  match r with
  | Except.ok v => some v.output
  | Except.error _ => none

/-! ## Basic facts about normalization -/

theorem dropWhile_eq_self_of_head (p : Char → Bool) (l : List Char)
    (h : ∀ c, l.head? = some c → p c = false) : l.dropWhile p = l := by
  cases l with
  | nil => rfl
  | cons a t =>
    have ha : p a = false := h a rfl
    simp [List.dropWhile_cons, ha]

theorem pyStrip_eq_self {l : List Char}
    (h1 : ∀ c, l.head? = some c → isPySpace c = false)
    (h2 : ∀ c, l.getLast? = some c → isPySpace c = false) : pyStrip l = l := by
  unfold pyStrip
  rw [dropWhile_eq_self_of_head _ l h1]
  rw [dropWhile_eq_self_of_head _ l.reverse
    (fun c hc => h2 c (by rwa [List.head?_reverse] at hc))]
  exact List.reverse_reverse l

theorem not_newline_of_not_space {c : Char} (h : isPySpace c = false) :
    (c != '\n') = true := by
  rcases eq_or_ne c '\n' with rfl | hne
  · exact absurd h (by decide)
  · simpa using hne

theorem normalize_eq_self_of_no_space {l : List Char}
    (h : ∀ c ∈ l, isPySpace c = false) : normalize l = l := by
  unfold normalize
  rw [pyStrip_eq_self
    (fun c hc => h c (List.mem_of_mem_head? (hc ▸ rfl)))
    (fun c hc => h c (List.mem_of_getLast?_eq_some hc))]
  exact List.filter_eq_self.mpr fun c hc => not_newline_of_not_space (h c hc)

theorem no_space_replicate (n : Nat) {c : Char} (hc : isPySpace c = false) :
    ∀ d ∈ List.replicate n c, isPySpace d = false := by
  intro d hd
  rw [List.eq_of_mem_replicate hd]
  exact hc

/-- Evaluation of the validator on a uniform valid fragment. -/
theorem read_and_validate_replicate {c : Char} (hs : isPySpace c = false)
    (hh : HEX_CHARS.contains c = true) :
    read_and_validate (List.replicate 16384 c) =
      Except.ok (List.replicate 16384 (Char.toLower c)) := by
  unfold read_and_validate
  rw [normalize_eq_self_of_no_space (no_space_replicate 16384 hs)]
  simp only [List.length_replicate, List.any_replicate, List.map_replicate, hh]
  norm_num

/-! ## Basic facts about the chunker -/

theorem chunksOf_nil (n : Nat) : chunksOf n [] = [] := by
  unfold chunksOf
  simp

theorem chunksOf_cons (n : Nat) (hn : n ≠ 0) {s : List Char} (hs : s ≠ []) :
    chunksOf n s = s.take n :: chunksOf n (s.drop n) := by
  conv_lhs => unfold chunksOf
  rw [dif_neg (not_or.mpr ⟨hn, hs⟩)]

theorem chunksOf_flatten_aux (n : Nat) (hn : 0 < n) :
    ∀ (k : Nat) (s : List Char), s.length ≤ k * n → (chunksOf n s).flatten = s := by
  intro k
  induction k with
  | zero =>
    intro s h
    have hs : s = [] := List.eq_nil_of_length_eq_zero (by omega)
    rw [hs, chunksOf_nil]
    rfl
  | succ k ih =>
    intro s h
    rw [Nat.succ_mul] at h
    rcases eq_or_ne s [] with rfl | hs
    · rw [chunksOf_nil]; rfl
    · rw [chunksOf_cons n hn.ne' hs, List.flatten_cons,
        ih (s.drop n) (by rw [List.length_drop]; omega)]
      exact List.take_append_drop n s

theorem chunksOf_flatten (n : Nat) (hn : 0 < n) (s : List Char) :
    (chunksOf n s).flatten = s :=
  chunksOf_flatten_aux n hn s.length s (Nat.le_mul_of_pos_right _ hn)

theorem chunksOf_length_of_mul (n : Nat) (hn : 0 < n) :
    ∀ (k : Nat) (s : List Char), s.length = k * n → (chunksOf n s).length = k := by
  intro k
  induction k with
  | zero =>
    intro s h
    have hs : s = [] := List.eq_nil_of_length_eq_zero (by omega)
    rw [hs, chunksOf_nil]
    rfl
  | succ k ih =>
    intro s h
    rw [Nat.succ_mul] at h
    have hs : s ≠ [] := List.ne_nil_of_length_pos (by omega)
    rw [chunksOf_cons n hn.ne' hs, List.length_cons,
      ih (s.drop n) (by rw [List.length_drop]; omega)]

theorem chunksOf_all_length (n : Nat) (hn : 0 < n) :
    ∀ (k : Nat) (s : List Char), s.length = k * n →
      ∀ c ∈ chunksOf n s, c.length = n := by
  intro k
  induction k with
  | zero =>
    intro s h c hc
    have hs : s = [] := List.eq_nil_of_length_eq_zero (by omega)
    rw [hs, chunksOf_nil] at hc
    exact absurd hc (List.not_mem_nil c)
  | succ k ih =>
    intro s h c hc
    rw [Nat.succ_mul] at h
    have hs : s ≠ [] := List.ne_nil_of_length_pos (by omega)
    rw [chunksOf_cons n hn.ne' hs] at hc
    rcases List.mem_cons.mp hc with rfl | hc
    · rw [List.length_take]
      omega
    · exact ih (s.drop n) (by rw [List.length_drop]; omega) c hc

theorem chunksOf_append_left (n : Nat) (hn : 0 < n) :
    ∀ (k : Nat) (s t : List Char), s.length = k * n →
      chunksOf n (s ++ t) = chunksOf n s ++ chunksOf n t := by
  intro k
  induction k with
  | zero =>
    intro s t h
    have hs : s = [] := List.eq_nil_of_length_eq_zero (by omega)
    rw [hs, chunksOf_nil]
    rfl
  | succ k ih =>
    intro s t h
    rw [Nat.succ_mul] at h
    have hs : s ≠ [] := List.ne_nil_of_length_pos (by omega)
    have hst : s ++ t ≠ [] := fun e => hs (List.append_eq_nil.mp e).1
    have hlt : (s.take n).length = n := by
      rw [List.length_take]
      omega
    have hsplit : s.take n ++ (s.drop n ++ t) = s ++ t := by
      rw [← List.append_assoc, List.take_append_drop]
    rw [chunksOf_cons n hn.ne' hst, chunksOf_cons n hn.ne' hs, List.cons_append]
    rw [← hsplit, List.take_left' hlt, List.drop_left' hlt]
    rw [ih (s.drop n) t (by rw [List.length_drop]; omega)]

theorem chunksOf_replicate (n : Nat) (hn : 0 < n) (c : Char) :
    ∀ k : Nat, chunksOf n (List.replicate (k * n) c) =
      List.replicate k (List.replicate n c) := by
  intro k
  induction k with
  | zero => simpa using chunksOf_nil n
  | succ k ih =>
    have hk : (k + 1) * n = n + k * n := by ring
    have hne : List.replicate n c ≠ [] := by
      simp [List.replicate_eq_nil_iff, hn.ne']
    rw [hk, List.replicate_add,
      chunksOf_append_left n hn 1 _ _ (by simp),
      chunksOf_cons n hn.ne' hne, ih]
    rw [List.take_of_length_le (by simp), List.drop_of_length_le (by simp),
      chunksOf_nil]
    rfl

/-! ## Facts about successful validation -/

theorem read_and_validate_ok_iff {raw : List Char} {s : List Char} :
    read_and_validate raw = Except.ok s ↔
      (normalize raw).length = 16384 ∧
      ((normalize raw).any (fun c => !(HEX_CHARS.contains c))) = false ∧
      s = (normalize raw).map Char.toLower := by
  unfold read_and_validate
  constructor
  · intro h
    split_ifs at h with h1 h2
    have h1' : (normalize raw).length = 16384 := not_not.mp h1
    have hany : ((normalize raw).any (fun c => !(HEX_CHARS.contains c))) = false := by
      rcases Bool.or_eq_false_iff.mp (Bool.eq_false_iff.mpr h2) with ⟨_, hr⟩
      exact hr
    exact ⟨h1', hany, (Except.ok.inj h).symm⟩
  · rintro ⟨h1, h2, rfl⟩
    have hcond : ((normalize raw).length % 2 != 0
        || (normalize raw).any (fun c => !(HEX_CHARS.contains c))) = false := by
      rw [Bool.or_eq_false_iff]
      exact ⟨by simp [h1], h2⟩
    rw [if_neg (not_not_intro h1), if_neg (by rw [hcond]; simp)]

theorem read_and_validate_ok_length {raw s : List Char}
    (h : read_and_validate raw = Except.ok s) : s.length = 16384 := by
  obtain ⟨h1, _, rfl⟩ := read_and_validate_ok_iff.mp h
  rw [List.length_map, h1]

theorem toLower_mem_lower_hex :
    ∀ c ∈ HEX_CHARS, Char.toLower c ∈ ("0123456789abcdef".toList) := by
  decide

theorem read_and_validate_ok_chars {raw s : List Char}
    (h : read_and_validate raw = Except.ok s) :
    ∀ c ∈ s, c ∈ ("0123456789abcdef".toList) := by
  obtain ⟨_, h2, rfl⟩ := read_and_validate_ok_iff.mp h
  intro c hc
  obtain ⟨d, hd, rfl⟩ := List.mem_map.mp hc
  have hdhex : d ∈ HEX_CHARS := by
    have := List.any_eq_false.mp h2 d hd
    simpa [List.contains] using this
  exact toLower_mem_lower_hex d hdhex

/-! ## Palindromic test inputs: a single marker character between two equal
runs of zeros, so that both ends of the list are non-whitespace. -/

/-- `n` zeros, then the character `c`, then `n` zeros again. -/
def zeroSandwich (c : Char) (n : Nat) : List Char :=
  List.replicate n '0' ++ c :: List.replicate n '0'

theorem zeroSandwich_reverse (c : Char) (n : Nat) :
    (zeroSandwich c n).reverse = zeroSandwich c n := by
  unfold zeroSandwich
  rw [List.reverse_append, List.reverse_cons, List.reverse_replicate,
    List.append_assoc, List.singleton_append]

theorem zeroSandwich_head? (c : Char) {n : Nat} (hn : n ≠ 0) :
    (zeroSandwich c n).head? = some '0' := by
  unfold zeroSandwich
  rw [List.head?_append, List.head?_replicate, if_neg hn, Option.or_some]

theorem pyStrip_zeroSandwich (c : Char) {n : Nat} (hn : n ≠ 0) :
    pyStrip (zeroSandwich c n) = zeroSandwich c n := by
  refine pyStrip_eq_self ?_ ?_
  · intro d hd
    rw [zeroSandwich_head? c hn] at hd
    rw [← Option.some.inj hd]
    decide
  · intro d hd
    rw [List.getLast?_eq_head?_reverse, zeroSandwich_reverse,
      zeroSandwich_head? c hn] at hd
    rw [← Option.some.inj hd]
    decide

theorem filter_replicate_zero (p : Char → Bool) (hp : p '0' = true) (n : Nat) :
    (List.replicate n '0').filter p = List.replicate n '0' :=
  List.filter_eq_self.mpr fun c hc => by rw [List.eq_of_mem_replicate hc]; exact hp

theorem validate_zeros_ok :
    read_and_validate (List.replicate 16384 '0') =
      Except.ok (List.replicate 16384 '0') := by
  have h0 : Char.toLower '0' = '0' := by decide
  have h := read_and_validate_replicate (c := '0') (by decide) (by decide)
  rwa [h0] at h

/-! ## Claim theorems -/

/-- C4: for every combined payload over the hex alphabet whose length is a
positive multiple of the chunk length 1024, the chunker produces
`length / 1024` substrings, each of length exactly 1024, whose in-order
concatenation reproduces the payload exactly. -/
theorem c4_chunk_coverage (s : List Char) (k : Nat) (hk : 0 < k)
    (hlen : s.length = k * 1024) (hhex : ∀ c ∈ s, c ∈ HEX_CHARS) :
    (chunksOf 1024 s).length = s.length / 1024 ∧
    (∀ c ∈ chunksOf 1024 s, c.length = 1024) ∧
    (chunksOf 1024 s).flatten = s := by
  refine ⟨?_, chunksOf_all_length 1024 (by norm_num) k s hlen,
    chunksOf_flatten 1024 (by norm_num) s⟩
  rw [chunksOf_length_of_mul 1024 (by norm_num) k s hlen, hlen]
  omega

theorem c4_chunk_coverage_witness :
    0 < 1 ∧
    (chunksOf 1024 (List.replicate 1024 '0')).length =
      (List.replicate 1024 '0').length / 1024 ∧
    (∀ c ∈ chunksOf 1024 (List.replicate 1024 '0'), c.length = 1024) ∧
    (chunksOf 1024 (List.replicate 1024 '0')).flatten =
      List.replicate 1024 '0' := by
  refine ⟨Nat.one_pos, ?_⟩
  exact c4_chunk_coverage (List.replicate 1024 '0') 1 Nat.one_pos
    (by rw [List.length_replicate])
    (fun c hc => by rw [List.eq_of_mem_replicate hc]; decide)

/-- C5: whenever the validator succeeds on a raw blob, the returned string has
exactly 16384 characters and every one of them is a lowercase hexadecimal
digit, regardless of the casing of the input. -/
theorem c5_validator_success_shape (raw s : List Char)
    (h : read_and_validate raw = Except.ok s) :
    s.length = 16384 ∧ ∀ c ∈ s, c ∈ ("0123456789abcdef".toList) :=
  ⟨read_and_validate_ok_length h, read_and_validate_ok_chars h⟩

theorem c5_validator_success_shape_witness :
    read_and_validate (List.replicate 16384 '0') =
      Except.ok (List.replicate 16384 '0') ∧
    (List.replicate 16384 '0').length = 16384 ∧
    ∀ c ∈ List.replicate 16384 '0', c ∈ ("0123456789abcdef".toList) := by
  exact ⟨validate_zeros_ok,
    c5_validator_success_shape _ _ validate_zeros_ok⟩

/-- C6: the invalid-character check is independent of and in addition to the
length check — a fragment of the correct normalized length containing a
non-hex character is rejected with the invalid-character condition, and a
fragment that is both the wrong length and contains an invalid character is
also rejected. -/
theorem c6_invalid_char_rejection (raw : List Char) :
    ((normalize raw).length = 16384 → (∃ c ∈ normalize raw, c ∉ HEX_CHARS) →
      read_and_validate raw = Except.error RomError.invalidHex) ∧
    ((normalize raw).length ≠ 16384 → (∃ c ∈ normalize raw, c ∉ HEX_CHARS) →
      ∃ e, read_and_validate raw = Except.error e) := by
  constructor
  · rintro hlen ⟨c, hc, hcx⟩
    have hcond : ((normalize raw).length % 2 != 0
        || (normalize raw).any (fun c => !(HEX_CHARS.contains c))) = true := by
      refine Bool.or_eq_true_iff.mpr (Or.inr ?_)
      exact List.any_eq_true.mpr ⟨c, hc, by simp [List.contains, hcx]⟩
    unfold read_and_validate
    rw [if_neg (not_not_intro hlen), if_pos hcond]
  · intro hlen _
    refine ⟨RomError.lengthMismatch (normalize raw).length 16384, ?_⟩
    unfold read_and_validate
    rw [if_pos hlen]

/-- A fragment made of `n` zeros followed by one `'g'`: pure non-whitespace
text containing an invalid hex character. -/
def zerosThenG (n : Nat) : List Char := List.replicate n '0' ++ ['g']

theorem no_space_zerosThenG (n : Nat) :
    ∀ c ∈ zerosThenG n, isPySpace c = false := by
  intro c hc
  rcases List.mem_append.mp hc with h | h
  · rw [List.eq_of_mem_replicate h]; decide
  · rw [List.mem_singleton.mp h]; decide

theorem normalize_zerosThenG (n : Nat) : normalize (zerosThenG n) = zerosThenG n :=
  normalize_eq_self_of_no_space (no_space_zerosThenG n)

theorem c6_invalid_char_rejection_witness :
    read_and_validate (zerosThenG 16383) = Except.error RomError.invalidHex ∧
    ∃ e, read_and_validate (zerosThenG 16382) = Except.error e := by
  have hmemg : ∀ n : Nat, 'g' ∈ zerosThenG n := fun n =>
    List.mem_append_right _ (List.mem_singleton_self 'g')
  have hlen : ∀ n : Nat, (zerosThenG n).length = n + 1 := fun n => by
    rw [zerosThenG, List.length_append, List.length_replicate]
    rfl
  have hg1 : ∃ c ∈ normalize (zerosThenG 16383), c ∉ HEX_CHARS := by
    rw [normalize_zerosThenG]
    exact ⟨'g', hmemg 16383, by decide⟩
  have hg2 : ∃ c ∈ normalize (zerosThenG 16382), c ∉ HEX_CHARS := by
    rw [normalize_zerosThenG]
    exact ⟨'g', hmemg 16382, by decide⟩
  refine ⟨(c6_invalid_char_rejection (zerosThenG 16383)).1 ?_ hg1,
    (c6_invalid_char_rejection (zerosThenG 16382)).2 ?_ hg2⟩
  · rw [normalize_zerosThenG, hlen 16383]
  · rw [normalize_zerosThenG, hlen 16382]
    omega

/-- C8: if both fragments pass validation, the assembled payload has length
32768, so the integrity-mismatch branch of `main` is unreachable. -/
theorem c8_integrity_unreachable (raw1 raw2 s1 s2 : List Char)
    (h1 : read_and_validate raw1 = Except.ok s1)
    (h2 : read_and_validate raw2 = Except.ok s2) :
    (s1 ++ s2).length = 32768 ∧
    main raw1 raw2 ≠ Except.error RomError.integrityMismatch := by
  have hlen : (s1 ++ s2).length = 32768 := by
    rw [List.length_append, read_and_validate_ok_length h1,
      read_and_validate_ok_length h2]
  refine ⟨hlen, ?_⟩
  unfold main
  rw [h1, h2]
  simp [hlen]

theorem c8_integrity_unreachable_witness :
    (List.replicate 16384 '0' ++ List.replicate 16384 '0').length = 32768 ∧
    main (List.replicate 16384 '0') (List.replicate 16384 '0') ≠
      Except.error RomError.integrityMismatch := by
  exact c8_integrity_unreachable _ _ _ _ validate_zeros_ok validate_zeros_ok

/-- C10: the pipeline is deterministic — byte-identical input file contents
give byte-identical results (output file text and all observable effects). -/
theorem c10_deterministic (raw1 raw2 raw1' raw2' : List Char)
    (h1 : raw1 = raw1') (h2 : raw2 = raw2') :
    main raw1 raw2 = main raw1' raw2' ∧
    writtenOutput (main raw1 raw2) = writtenOutput (main raw1' raw2') := by
  rw [h1, h2]
  exact ⟨rfl, rfl⟩

theorem c10_deterministic_witness :
    main [] [] = main [] [] ∧
    writtenOutput (main [] []) = writtenOutput (main [] []) :=
  c10_deterministic [] [] [] [] rfl rfl

/-! ## C1: the normalization does not remove embedded spaces or tabs -/

theorem mem_zeroSandwich {c d : Char} {n : Nat} (h : d ∈ zeroSandwich c n) :
    d = '0' ∨ d = c := by
  rcases List.mem_append.mp h with h | h
  · exact Or.inl (List.eq_of_mem_replicate h)
  · rcases List.mem_cons.mp h with h | h
    · exact Or.inr h
    · exact Or.inl (List.eq_of_mem_replicate h)

theorem normalize_zeroSandwich (c : Char) {n : Nat} (hc : (c != '\n') = true)
    (hn : n ≠ 0) : normalize (zeroSandwich c n) = zeroSandwich c n := by
  unfold normalize
  rw [pyStrip_zeroSandwich c hn]
  refine List.filter_eq_self.mpr fun d hd => ?_
  rcases mem_zeroSandwich hd with rfl | rfl
  · decide
  · exact hc

theorem normalize_zeroSandwich_newline {n : Nat} (hn : n ≠ 0) :
    normalize (zeroSandwich '\n' n) = List.replicate (n + n) '0' := by
  unfold normalize
  rw [pyStrip_zeroSandwich '\n' hn]
  unfold zeroSandwich
  rw [List.filter_append, filter_replicate_zero _ (by decide), List.filter_cons,
    if_neg (by decide), filter_replicate_zero _ (by decide), ← List.replicate_add]

/-- C1 counterexample: a fragment whose non-whitespace characters form exactly
16384 valid hex digits, but with one space embedded in its interior, is
rejected with a length mismatch of 16385 — the embedded space is not removed
by the normalization. -/
theorem c1_counterexample :
    ((zeroSandwich ' ' 8192).filter (fun c => !(isPySpace c))).length = 16384 ∧
    (∀ c ∈ (zeroSandwich ' ' 8192).filter (fun c => !(isPySpace c)),
      c ∈ HEX_CHARS) ∧
    read_and_validate (zeroSandwich ' ' 8192) =
      Except.error (RomError.lengthMismatch 16385 16384) := by
  have hfil : (zeroSandwich ' ' 8192).filter (fun c => !(isPySpace c)) =
      List.replicate 8192 '0' ++ List.replicate 8192 '0' := by
    unfold zeroSandwich
    rw [List.filter_append, filter_replicate_zero _ (by decide), List.filter_cons,
      if_neg (by decide), filter_replicate_zero _ (by decide)]
  have hnorm : normalize (zeroSandwich ' ' 8192) = zeroSandwich ' ' 8192 :=
    normalize_zeroSandwich ' ' (by decide) (by norm_num)
  have hlen : (zeroSandwich ' ' 8192).length = 16385 := by
    unfold zeroSandwich
    rw [List.length_append, List.length_replicate, List.length_cons,
      List.length_replicate]
  refine ⟨?_, ?_, ?_⟩
  · rw [hfil, List.length_append, List.length_replicate]
  · rw [hfil]
    intro c hc
    rcases List.mem_append.mp hc with h | h <;>
      (rw [List.eq_of_mem_replicate h]; decide)
  · unfold read_and_validate
    rw [hnorm, hlen, if_pos (by norm_num)]

/-- C1 (amended): the validator's normalization strips leading and trailing
whitespace and removes every newline character, including embedded ones, before
the length and character-set checks; a fragment whose characters after that
normalization form exactly 16384 valid hexadecimal digits is accepted — in
particular one with newlines embedded in its interior.  Embedded spaces or tabs
are not removed and lead to rejection by the length check. -/
theorem c1_normalized_hex_accepted (raw : List Char)
    (hlen : (normalize raw).length = 16384)
    (hhex : ∀ c ∈ normalize raw, c ∈ HEX_CHARS) :
    ∃ s, read_and_validate raw = Except.ok s := by
  refine ⟨(normalize raw).map Char.toLower,
    read_and_validate_ok_iff.mpr ⟨hlen, ?_, rfl⟩⟩
  rw [List.any_eq_false]
  intro c hc
  simp [List.contains, hhex c hc]

theorem c1_normalized_hex_accepted_witness :
    (normalize (zeroSandwich '\n' 8192)).length = 16384 ∧
    ∃ s, read_and_validate (zeroSandwich '\n' 8192) = Except.ok s := by
  have hn : normalize (zeroSandwich '\n' 8192) = List.replicate (8192 + 8192) '0' :=
    normalize_zeroSandwich_newline (by norm_num)
  have hlen : (normalize (zeroSandwich '\n' 8192)).length = 16384 := by
    rw [hn, List.length_replicate]
  refine ⟨hlen, c1_normalized_hex_accepted _ hlen ?_⟩
  rw [hn]
  intro c hc
  rw [List.eq_of_mem_replicate hc]
  decide

/-! ## C7: a one-short fragment aborts the run before any write -/

theorem validate_short_zeros :
    read_and_validate (List.replicate 16383 '0') =
      Except.error (RomError.lengthMismatch 16383 16384) := by
  have hnorm : normalize (List.replicate 16383 '0') = List.replicate 16383 '0' :=
    normalize_eq_self_of_no_space (no_space_replicate _ (by decide))
  unfold read_and_validate
  rw [hnorm, List.length_replicate, if_pos (by norm_num)]

/-- C7 counterexample: a run in which the second fragment has normalized
length 16383 but the first fragment fails the character-set check aborts with
the invalid-hex condition, not with a length mismatch reporting 16383. -/
theorem c7_counterexample :
    (normalize (List.replicate 16383 '0')).length = 16383 ∧
    main (List.replicate 16384 'g') (List.replicate 16383 '0') =
      Except.error RomError.invalidHex ∧
    RomError.invalidHex ≠ RomError.lengthMismatch 16383 16384 := by
  have hnormg : normalize (List.replicate 16384 'g') = List.replicate 16384 'g' :=
    normalize_eq_self_of_no_space (no_space_replicate _ (by decide))
  have hany : (List.replicate 16384 'g').any (fun c => !(HEX_CHARS.contains c))
      = true := by
    rw [List.any_replicate, if_neg (by norm_num)]
    decide
  have hval1 : read_and_validate (List.replicate 16384 'g') =
      Except.error RomError.invalidHex := by
    unfold read_and_validate
    rw [hnormg, List.length_replicate, if_neg (by norm_num),
      if_pos (by rw [hany]; decide)]
  refine ⟨?_, ?_, by decide⟩
  · rw [normalize_eq_self_of_no_space (no_space_replicate _ (by decide)),
      List.length_replicate]
  · unfold main
    rw [hval1]

/-- C7 (amended): whenever a fragment's normalized length is 16383 and every
fragment validated before it passes validation, the run fails with a length
mismatch reporting actual 16383 and expected 16384, and no output is ever
written. -/
theorem c7_short_fragment_aborts (raw1 raw2 : List Char) :
    ((normalize raw1).length = 16383 →
      main raw1 raw2 = Except.error (RomError.lengthMismatch 16383 16384) ∧
      writtenOutput (main raw1 raw2) = none) ∧
    ((∃ s, read_and_validate raw1 = Except.ok s) →
      (normalize raw2).length = 16383 →
      main raw1 raw2 = Except.error (RomError.lengthMismatch 16383 16384) ∧
      writtenOutput (main raw1 raw2) = none) := by
  constructor
  · intro h1
    have hval : read_and_validate raw1 =
        Except.error (RomError.lengthMismatch 16383 16384) := by
      unfold read_and_validate
      rw [h1, if_pos (by norm_num)]
    have hmain : main raw1 raw2 =
        Except.error (RomError.lengthMismatch 16383 16384) := by
      unfold main
      rw [hval]
    exact ⟨hmain, by rw [hmain]; rfl⟩
  · rintro ⟨s, hs⟩ h2
    have hval : read_and_validate raw2 =
        Except.error (RomError.lengthMismatch 16383 16384) := by
      unfold read_and_validate
      rw [h2, if_pos (by norm_num)]
    have hmain : main raw1 raw2 =
        Except.error (RomError.lengthMismatch 16383 16384) := by
      unfold main
      rw [hs, hval]
    exact ⟨hmain, by rw [hmain]; rfl⟩

theorem c7_short_fragment_aborts_witness :
    (main (List.replicate 16383 '0') [] =
        Except.error (RomError.lengthMismatch 16383 16384) ∧
      writtenOutput (main (List.replicate 16383 '0') []) = none) ∧
    (main (List.replicate 16384 '0') (List.replicate 16383 '0') =
        Except.error (RomError.lengthMismatch 16383 16384) ∧
      writtenOutput (main (List.replicate 16384 '0')
        (List.replicate 16383 '0')) = none) := by
  have hshort : (normalize (List.replicate 16383 '0')).length = 16383 := by
    rw [normalize_eq_self_of_no_space (no_space_replicate _ (by decide)),
      List.length_replicate]
  exact ⟨(c7_short_fragment_aborts _ _).1 hshort,
    (c7_short_fragment_aborts _ _).2 ⟨_, validate_zeros_ok⟩ hshort⟩

/-! ## Evaluation of `main` on validated inputs -/

theorem main_ok_of_ok (raw1 raw2 s1 s2 : List Char)
    (h1 : read_and_validate raw1 = Except.ok s1)
    (h2 : read_and_validate raw2 = Except.ok s2)
    (hlen : (s1 ++ s2).length = 32768) :
    main raw1 raw2 = Except.ok
      ⟨renderSol (chunksOf CHUNK_HEX_LEN (s1 ++ s2)), buildMessage⟩ := by
  unfold main
  rw [h1, h2]
  simp [hlen]

theorem main_error_left (raw1 raw2 : List Char) (e : RomError)
    (h : read_and_validate raw1 = Except.error e) :
    main raw1 raw2 = Except.error e := by
  unfold main
  rw [h]

theorem main_error_right (raw1 raw2 p1 : List Char) (e : RomError)
    (h1 : read_and_validate raw1 = Except.ok p1)
    (h2 : read_and_validate raw2 = Except.error e) :
    main raw1 raw2 = Except.error e := by
  unfold main
  rw [h1, h2]

theorem main_integrity (raw1 raw2 p1 p2 : List Char)
    (h1 : read_and_validate raw1 = Except.ok p1)
    (h2 : read_and_validate raw2 = Except.ok p2)
    (hc : (p1 ++ p2).length ≠ 32768) :
    main raw1 raw2 = Except.error RomError.integrityMismatch := by
  rw [List.length_append] at hc
  unfold main
  rw [h1, h2]
  simp [hc]

/-! ## C2: the success message is a brace-escaped placeholder -/

/-- C2: [code bug] on every successful run the printed message is the literal
placeholder text `Generated \x7bOUTPUT_SOL\x7d (\x7blen(combined) // 2\x7d bytes)` —
the script doubles the braces inside an f-string — and in particular it is not
the intended text naming the output path and the byte count. -/
theorem c2_message_is_placeholder (raw1 raw2 : List Char) (r : RunResult)
    (h : main raw1 raw2 = Except.ok r) :
    r.message = buildMessage ∧
    r.message ≠ ("Generated src/BasicRom.sol (16384 bytes)".toList) := by
  have hmsg : r.message = buildMessage := by
    rcases hv1 : read_and_validate raw1 with e1 | p1
    · rw [main_error_left raw1 raw2 e1 hv1] at h
      exact absurd h (by simp)
    rcases hv2 : read_and_validate raw2 with e2 | p2
    · rw [main_error_right raw1 raw2 p1 e2 hv1 hv2] at h
      exact absurd h (by simp)
    by_cases hc : (p1 ++ p2).length = 32768
    · rw [main_ok_of_ok raw1 raw2 p1 p2 hv1 hv2 hc] at h
      rw [← Except.ok.inj h]
    · rw [main_integrity raw1 raw2 p1 p2 hv1 hv2 hc] at h
      exact absurd h (by simp)
  exact ⟨hmsg, by rw [hmsg]; decide⟩

theorem c2_message_is_placeholder_witness :
    ∃ r, main (List.replicate 16384 '0') (List.replicate 16384 '0') =
        Except.ok r ∧
      r.message = buildMessage ∧
      r.message ≠ ("Generated src/BasicRom.sol (16384 bytes)".toList) := by
  have hlen : (List.replicate 16384 '0' ++ List.replicate 16384 '0').length
      = 32768 := by
    rw [List.length_append, List.length_replicate]
  have hm := main_ok_of_ok _ _ _ _ validate_zeros_ok validate_zeros_ok hlen
  exact ⟨_, hm, c2_message_is_placeholder _ _ _ hm⟩

/-! ## C3: the concrete two-fragment scenario -/

/-- Fragment A of the concrete scenario: `"00"` repeated 8192 times. -/
def romA : List Char := List.replicate 16384 '0'

/-- Fragment B of the concrete scenario: `"ff"` repeated 8192 times. -/
def romB : List Char := List.replicate 16384 'f'

theorem validate_romB_ok : read_and_validate romB = Except.ok romB := by
  have hf : Char.toLower 'f' = 'f' := by decide
  have h := read_and_validate_replicate (c := 'f') (by decide) (by decide)
  rwa [hf] at h

theorem chunks_romAB :
    chunksOf CHUNK_HEX_LEN (romA ++ romB) =
      List.replicate 16 (List.replicate 1024 '0') ++
      List.replicate 16 (List.replicate 1024 'f') := by
  have hA : romA = List.replicate (16 * 1024) '0' := by norm_num [romA]
  have hB : romB = List.replicate (16 * 1024) 'f' := by norm_num [romB]
  have hlenA : romA.length = 16 * 1024 := by
    rw [hA, List.length_replicate]
  show chunksOf 1024 (romA ++ romB) = _
  rw [chunksOf_append_left 1024 (by norm_num) 16 romA romB hlenA,
    hA, hB, chunksOf_replicate 1024 (by norm_num) '0' 16,
    chunksOf_replicate 1024 (by norm_num) 'f' 16]

/-- C3: with fragment A equal to `"00"` × 8192 and fragment B equal to
`"ff"` × 8192, both fragments validate, the combined payload has length 32768
and splits into 32 chunks of 1024 characters each, the first chunk all zeros
and the last chunk all `f`s, and the emitted output is the render of exactly
those 32 hex literal tokens in order. -/
theorem c3_concrete_scenario :
    read_and_validate romA = Except.ok romA ∧
    read_and_validate romB = Except.ok romB ∧
    (romA ++ romB).length = 32768 ∧
    (chunksOf CHUNK_HEX_LEN (romA ++ romB)).length = 32 ∧
    (∀ c ∈ chunksOf CHUNK_HEX_LEN (romA ++ romB), c.length = 1024) ∧
    (chunksOf CHUNK_HEX_LEN (romA ++ romB)).head? =
      some (List.replicate 1024 '0') ∧
    (chunksOf CHUNK_HEX_LEN (romA ++ romB)).getLast? =
      some (List.replicate 1024 'f') ∧
    ((chunksOf CHUNK_HEX_LEN (romA ++ romB)).map hexLiteral).length = 32 ∧
    main romA romB = Except.ok
      ⟨renderSol (chunksOf CHUNK_HEX_LEN (romA ++ romB)), buildMessage⟩ := by
  have hlen : (romA ++ romB).length = 32768 := by
    show (List.replicate 16384 '0' ++ List.replicate 16384 'f').length = 32768
    rw [List.length_append, List.length_replicate, List.length_replicate]
  have hcount : (chunksOf CHUNK_HEX_LEN (romA ++ romB)).length = 32 := by
    rw [chunks_romAB, List.length_append, List.length_replicate,
      List.length_replicate]
  refine ⟨validate_zeros_ok, validate_romB_ok, hlen, hcount, ?_, ?_, ?_, ?_, ?_⟩
  · intro c hc
    rw [chunks_romAB] at hc
    rcases List.mem_append.mp hc with h | h <;>
      rw [List.eq_of_mem_replicate h, List.length_replicate]
  · rw [chunks_romAB, List.head?_append, List.head?_replicate,
      if_neg (by norm_num), Option.or_some]
  · rw [chunks_romAB, List.getLast?_append, List.getLast?_eq_head?_reverse,
      List.reverse_replicate, List.head?_replicate, if_neg (by norm_num)]
    rfl
  · rw [List.length_map, hcount]
  · exact main_ok_of_ok _ _ _ _ validate_zeros_ok validate_romB_ok hlen

/-! ## C9: case-insensitivity of the pipeline

Two raw inputs are case variants when they agree position by position up to
the case of the hex letters `a`-`f` / `A`-`F`. -/

/-- The uppercase hex letters. -/
def hexUpperChars : List Char := ['A', 'B', 'C', 'D', 'E', 'F']

/-- `caseVariant c d`: the characters are equal, or they are the uppercase and
lowercase forms of the same hex letter. -/
def caseVariant (c d : Char) : Prop :=
  c = d ∨ (c ∈ hexUpperChars ∧ d = Char.toLower c) ∨
    (d ∈ hexUpperChars ∧ c = Char.toLower d)

theorem hexUpper_facts : ∀ c ∈ hexUpperChars,
    isPySpace c = isPySpace (Char.toLower c) ∧
    (c != '\n') = ((Char.toLower c) != '\n') ∧
    HEX_CHARS.contains c = HEX_CHARS.contains (Char.toLower c) ∧
    Char.toLower (Char.toLower c) = Char.toLower c := by
  decide

theorem caseVariant_isPySpace {c d : Char} (h : caseVariant c d) :
    isPySpace c = isPySpace d := by
  rcases h with rfl | ⟨hc, rfl⟩ | ⟨hd, rfl⟩
  · rfl
  · exact (hexUpper_facts c hc).1
  · exact ((hexUpper_facts d hd).1).symm

theorem caseVariant_bne_newline {c d : Char} (h : caseVariant c d) :
    (c != '\n') = (d != '\n') := by
  rcases h with rfl | ⟨hc, rfl⟩ | ⟨hd, rfl⟩
  · rfl
  · exact (hexUpper_facts c hc).2.1
  · exact ((hexUpper_facts d hd).2.1).symm

theorem caseVariant_contains {c d : Char} (h : caseVariant c d) :
    HEX_CHARS.contains c = HEX_CHARS.contains d := by
  rcases h with rfl | ⟨hc, rfl⟩ | ⟨hd, rfl⟩
  · rfl
  · exact (hexUpper_facts c hc).2.2.1
  · exact ((hexUpper_facts d hd).2.2.1).symm

theorem caseVariant_toLower {c d : Char} (h : caseVariant c d) :
    Char.toLower c = Char.toLower d := by
  rcases h with rfl | ⟨hc, rfl⟩ | ⟨hd, rfl⟩
  · rfl
  · exact ((hexUpper_facts c hc).2.2.2).symm
  · exact (hexUpper_facts d hd).2.2.2

theorem forall2_dropWhile {R : Char → Char → Prop} (p : Char → Bool)
    (hp : ∀ c d, R c d → p c = p d) :
    ∀ {a b : List Char}, List.Forall₂ R a b →
      List.Forall₂ R (a.dropWhile p) (b.dropWhile p) := by
  intro a b h
  induction h with
  | nil => exact List.Forall₂.nil
  | @cons c d l1 l2 h1 h2 ih =>
    rw [List.dropWhile_cons, List.dropWhile_cons, hp c d h1]
    by_cases hd : p d = true
    · rw [if_pos hd, if_pos hd]
      exact ih
    · rw [if_neg hd, if_neg hd]
      exact List.Forall₂.cons h1 h2

theorem forall2_filter {R : Char → Char → Prop} (p : Char → Bool)
    (hp : ∀ c d, R c d → p c = p d) :
    ∀ {a b : List Char}, List.Forall₂ R a b →
      List.Forall₂ R (a.filter p) (b.filter p) := by
  intro a b h
  induction h with
  | nil => exact List.Forall₂.nil
  | @cons c d l1 l2 h1 h2 ih =>
    rw [List.filter_cons, List.filter_cons, hp c d h1]
    by_cases hd : p d = true
    · rw [if_pos hd, if_pos hd]
      exact List.Forall₂.cons h1 ih
    · rw [if_neg hd, if_neg hd]
      exact ih

theorem forall2_any {R : Char → Char → Prop} (p : Char → Bool)
    (hp : ∀ c d, R c d → p c = p d) :
    ∀ {a b : List Char}, List.Forall₂ R a b → a.any p = b.any p := by
  intro a b h
  induction h with
  | nil => rfl
  | @cons c d l1 l2 h1 h2 ih =>
    rw [List.any_cons, List.any_cons, hp c d h1, ih]

theorem forall2_map_eq {R : Char → Char → Prop} (f : Char → Char)
    (hf : ∀ c d, R c d → f c = f d) :
    ∀ {a b : List Char}, List.Forall₂ R a b → a.map f = b.map f := by
  intro a b h
  induction h with
  | nil => rfl
  | @cons c d l1 l2 h1 h2 ih =>
    rw [List.map_cons, List.map_cons, hf c d h1, ih]

theorem forall2_normalize {a b : List Char}
    (h : List.Forall₂ caseVariant a b) :
    List.Forall₂ caseVariant (normalize a) (normalize b) := by
  unfold normalize pyStrip
  refine forall2_filter _ (fun c d hcd => caseVariant_bne_newline hcd) ?_
  refine List.forall₂_reverse_iff.mpr ?_
  refine forall2_dropWhile _ (fun c d hcd => caseVariant_isPySpace hcd) ?_
  refine List.forall₂_reverse_iff.mpr ?_
  exact forall2_dropWhile _ (fun c d hcd => caseVariant_isPySpace hcd) h

theorem read_and_validate_caseVariant {a b : List Char}
    (h : List.Forall₂ caseVariant a b) :
    read_and_validate a = read_and_validate b := by
  have hn := forall2_normalize h
  have hlen : (normalize a).length = (normalize b).length := hn.length_eq
  have hany : (normalize a).any (fun c => !(HEX_CHARS.contains c)) =
      (normalize b).any (fun c => !(HEX_CHARS.contains c)) :=
    forall2_any _ (fun c d hcd => by rw [caseVariant_contains hcd]) hn
  have hmap : (normalize a).map Char.toLower = (normalize b).map Char.toLower :=
    forall2_map_eq _ (fun c d hcd => caseVariant_toLower hcd) hn
  unfold read_and_validate
  rw [hlen, hany, hmap]

/-- C9: two pairs of input fragment contents that differ only in the
letter-case of their hexadecimal characters produce the same run result — in
particular, identical output file contents. -/
theorem c9_case_insensitive (r1 r2 r1' r2' : List Char)
    (h1 : List.Forall₂ caseVariant r1 r1')
    (h2 : List.Forall₂ caseVariant r2 r2') :
    main r1 r2 = main r1' r2' ∧
    writtenOutput (main r1 r2) = writtenOutput (main r1' r2') := by
  have hm : main r1 r2 = main r1' r2' := by
    unfold main
    rw [read_and_validate_caseVariant h1, read_and_validate_caseVariant h2]
  exact ⟨hm, by rw [hm]⟩

theorem c9_case_insensitive_witness :
    main ['A'] ['0'] = main ['a'] ['0'] ∧
    writtenOutput (main ['A'] ['0']) = writtenOutput (main ['a'] ['0']) :=
  c9_case_insensitive _ _ _ _
    (List.Forall₂.cons (Or.inr (Or.inl ⟨by decide, by decide⟩))
      List.Forall₂.nil)
    (List.Forall₂.cons (Or.inl rfl) List.Forall₂.nil)

end BasicRomBuild
